import Mathlib

/-!
Verification of the run-timing and ranking core of the dog-sports tracker
(`src/app.js`).  The JavaScript core is shallowly embedded: numbers are
modelled by `ℚ` (JS numbers are used here far from any overflow or rounding
edge that would matter to the stated properties), strings by Lean `String`
(char lists), and the mutable `store` / `timer` globals by explicit state
passing.  Each definition is translated from the corresponding function in
`src/app.js`; the comment above each names its source.
-/

/-! ## Character and string primitives used by the time codec -/

/-- Whitespace test used by the embedded `String.prototype.trim` /
leading-whitespace skipping of `parseInt` and `parseFloat`.  (JS also trims
some exotic unicode whitespace; the inputs in play here only involve these.) -/
def isWS (c : Char) : Bool :=
  c = ' ' || c = '\t' || c = '\n' || c = '\r'

/-- `String.prototype.trim`: drop whitespace from both ends (on char lists). -/
def trimWS (l : List Char) : List Char :=
  ((l.dropWhile isWS).reverse.dropWhile isWS).reverse

/-- ASCII decimal digit test. -/
def isDigitChar (c : Char) : Bool :=
  48 ≤ c.toNat && c.toNat ≤ 57

/-- Numeric value of an ASCII digit. -/
def digitVal (c : Char) : Nat :=
  c.toNat - 48

/-- The ASCII digit for `d` (callers only use `d < 10`). -/
def digitChar (d : Nat) : Char :=
  match d with
  | 0 => '0' | 1 => '1' | 2 => '2' | 3 => '3' | 4 => '4'
  | 5 => '5' | 6 => '6' | 7 => '7' | 8 => '8' | _ => '9'

/-- Longest digit prefix of a char list, with the remainder. -/
def takeDigits : List Char → List Char × List Char
  | [] => ([], [])
  | c :: cs =>
    if isDigitChar c then
      let p := takeDigits cs
      (c :: p.1, p.2)
    else ([], c :: cs)

/-- Value of a digit string (most significant digit first). -/
def digitsToNat (l : List Char) : Nat :=
  l.foldl (fun a c => a * 10 + digitVal c) 0

/-- Optional leading sign, as JS `parseInt` / `parseFloat` accept it. -/
def readSign : List Char → Int × List Char
  | [] => (1, [])
  | c :: cs => if c = '-' then (-1, cs) else if c = '+' then (1, cs) else (1, c :: cs)

/-- JS `parseInt(str, 10)`: skip leading whitespace, optional sign, then the
longest digit prefix; `NaN` (here `none`) when that prefix is empty.
Trailing garbage is ignored. -/
def parseIntJS (l : List Char) : Option Int :=
  let l1 := l.dropWhile isWS
  let (sgn, l2) := readSign l1
  let (ds, _) := takeDigits l2
  if ds.isEmpty then none else some (sgn * (digitsToNat ds : Int))

/-- Exponent suffix handling of JS `parseFloat` (`e`/`E`, optional sign,
digits; an `e` not followed by digits is not part of the number). -/
def applyExponent (m : ℚ) (l : List Char) : ℚ :=
  match l with
  | c :: rest =>
    if c = 'e' || c = 'E' then
      let (sgn, l2) := readSign rest
      let (ds, _) := takeDigits l2
      if ds.isEmpty then m else m * (10 : ℚ) ^ (sgn * (digitsToNat ds : Int))
    else m
  | [] => m

/-- JS `parseFloat(str)`: skip leading whitespace, optional sign, longest
`digits[.digits]` prefix (at least one digit overall), optional exponent;
`NaN` (here `none`) when no digits were found.  Trailing garbage is ignored.
(The `Infinity` literal is never produced by this app and is not modelled.) -/
def parseFloatJS (l : List Char) : Option ℚ :=
  let l1 := l.dropWhile isWS
  let (sgn, l2) := readSign l1
  let (ip, l3) := takeDigits l2
  let fr : List Char × List Char :=
    match l3 with
    | c :: rest => if c = '.' then takeDigits rest else ([], l3)
    | [] => ([], [])
  if ip.isEmpty && fr.1.isEmpty then none
  else
    let mantissa : ℚ := (digitsToNat ip : ℚ) + (digitsToNat fr.1 : ℚ) / 10 ^ fr.1.length
    some ((sgn : ℚ) * applyExponent mantissa fr.2)

/-- `String.prototype.split(":")` on char lists: the list of segments between
colons (never empty; `n` colons give `n+1` segments). -/
def splitOnColon : List Char → List (List Char)
  | [] => [[]]
  | c :: cs =>
    let r := splitOnColon cs
    if c = ':' then [] :: r
    else
      match r with
      | [] => [[c]]
      | h :: t => (c :: h) :: t

/-- `parseTimeString` from `src/app.js`: supports `mm:ss.xx`, `ss.xx` or `ss`.
Returns milliseconds, `none` for `null`.  `t.split(":")` destructured as
`[mm, rest]` uses only the first two segments. -/
def parseTimeString (s : String) : Option ℚ :=
  let t := trimWS s.data
  if t.isEmpty then none
  else if t.any (fun c => c = ':') then
    match splitOnColon t with
    | mm :: rest :: _ =>
      match parseFloatJS rest, parseIntJS mm with
      | some ss, some m => some (((m : ℚ) * 60 + ss) * 1000)
      | _, _ => none
    | _ => none
  else
    match parseFloatJS t with
    | some v => some (v * 1000)
    | none => none

/-! ## Decimal rendering (JS `String(n)` for naturals, with `padStart`) -/

/-- Decimal digits of `n`, least significant first (empty for `0`);
fuel-structured so that it reduces definitionally. -/
def natDigitsRevAux : Nat → Nat → List Char
  | 0, _ => []
  | fuel + 1, n =>
    if n = 0 then [] else digitChar (n % 10) :: natDigitsRevAux fuel (n / 10)

/-- Decimal digits of `n`, least significant first (empty for `0`). -/
def natDigitsRev (n : Nat) : List Char :=
  natDigitsRevAux (n + 1) n

/-- JS `String(n)` for a natural number, as a char list. -/
def natRepr (n : Nat) : List Char :=
  if n = 0 then ['0'] else (natDigitsRev n).reverse

/-- JS `String(n).padStart(2, '0')`. -/
def pad2 (l : List Char) : List Char :=
  if l.length < 2 then List.replicate (2 - l.length) '0' ++ l else l

/-- `formatTime` from `src/app.js`: renders `MM:SS.CC`
(`total = Math.max(0, Math.floor(ms))`, minutes `total/1000/60`,
seconds `total/1000 % 60`, centiseconds `(total % 1000)/10`, all padded). -/
def formatTime (ms : ℚ) : String :=
  let total : Nat := (max 0 ⌊ms⌋).toNat
  let s := total / 1000
  let m := s / 60
  let sec := s % 60
  let cs := (total % 1000) / 10
  ⟨pad2 (natRepr m) ++ ':' :: (pad2 (natRepr sec) ++ '.' :: pad2 (natRepr cs))⟩

/-! ## Speed and rounding -/

/-- `speedKmh` from `src/app.js`: `t = timeMs/1000`; `0` when `t ≤ 0`,
otherwise `distanceM * 3.6 / t`. -/
def speedKmh (distanceM timeMs : ℚ) : ℚ :=
  let t := timeMs / 1000
  if t ≤ 0 then 0 else distanceM * (3.6 : ℚ) / t

/-- JS `Math.round` (round half towards `+∞`), which agrees with
`⌊x + 1/2⌋` on all finite inputs. -/
def jsRound (x : ℚ) : Int :=
  ⌊x + 1 / 2⌋

/-- `round(n, d)` from `src/app.js`: `Math.round(n * 10^d) / 10^d`. -/
def roundTo (n : ℚ) (d : Nat) : ℚ :=
  (jsRound (n * 10 ^ d) : ℚ) / 10 ^ d

/-! ## Data model (the persisted `store` aggregate of `src/app.js`) -/

/-- A dog record, as created by `openDogEditor` / `quickAddVada`. -/
structure Dog where
  id : String
  name : String
  breed : String
  notes : String
  photoDataUrl : Option String
  createdAt : String
deriving DecidableEq, Repr

/-- A run record, as created by the save-run handler in `wireRecord`
(`{id, dogId, distanceM, timeMs, speedKmh, sport, notes, createdAt}`). -/
structure Run where
  id : String
  dogId : String
  distanceM : Int
  timeMs : ℚ
  speedKmh : ℚ
  sport : String
  notes : String
  createdAt : String
deriving DecidableEq, Repr

/-- The `settings` object.  `activeDogId` may be absent (`undefined`). -/
structure Settings where
  defaultDistanceM : Int
  defaultSport : String
  units : String
  activeDogId : Option String
deriving DecidableEq, Repr

/-- The root `store` aggregate.  `version` is `Option` because imported or
persisted JSON may lack the field (JS `undefined`). -/
structure Store where
  version : Option Int
  activeTab : String
  distances : List Int
  dogs : List Dog
  runs : List Run
  settings : Settings
deriving DecidableEq, Repr

/-- `defaultStore` from `src/app.js`. -/
def defaultStore : Store :=
  { version := some 2
    activeTab := "dogs"
    distances := [100, 200, 50]
    dogs := []
    runs := []
    settings :=
      { defaultDistanceM := 100
        defaultSport := "Sprint"
        units := "kmh"
        activeDogId := none } }

/-- JS truthiness of the `version` field (`!s.version`): absent, `0` (and
`NaN`, not representable here) are falsy; every other number is truthy. -/
def versionTruthy : Option Int → Bool
  | none => false
  | some v => v ≠ 0

/-- `loadStore` from `src/app.js`, with the persistence and JSON layers
abstracted: the argument is the parse result of the persisted bytes
(`none` covers both an absent key and an unparsable payload, which
`safeJSONParse` turns into the fallback).  A payload without a truthy
`version` is replaced by `defaultStore()`. -/
def loadStore (parsed : Option Store) : Store :=
  match parsed with
  | none => defaultStore
  | some s => if versionTruthy s.version then s else defaultStore

/-- The import handler in `wireSettings` (`#importForm` submit): the argument
is the parse result of the selected file; `if(!data || !data.version)` keeps
the current store, otherwise `store = data` replaces it wholesale. -/
def importSnapshot (parsed : Option Store) (current : Store) : Store :=
  match parsed with
  | none => current
  | some s => if versionTruthy s.version then s else current

/-! ## A stable sort modelling `Array.prototype.sort`

JS `Array.prototype.sort` with a consistent comparator produces the sorted
stable permutation, which is the same list any stable sorting algorithm
produces; it is modelled here by a stable insertion sort.  `lt a b` renders
`comparator(a, b) < 0` ("`a` strictly precedes `b`"). -/

/-- Insert `x` after every element not strictly after it (stable position). -/
def insertSorted (lt : α → α → Bool) (x : α) : List α → List α
  | [] => [x]
  | y :: ys => if lt x y then x :: y :: ys else y :: insertSorted lt x ys

/-- Stable sort by a strict comparator (elements are inserted left to right,
so of two tied elements the earlier one stays first). -/
def sortByLt (lt : α → α → Bool) (l : List α) : List α :=
  l.foldl (fun acc x => insertSorted lt x acc) []

/-! ## Derived data (`runsForDog`, `bestRunForDog`, `leaderboard`) -/

/-- Lexicographic (code-unit) strict comparison of char lists:
`a.localeCompare(b) < 0` for the ASCII timestamp strings compared here. -/
def listLtChar : List Char → List Char → Bool
  | [], [] => false
  | [], _ :: _ => true
  | _ :: _, [] => false
  | a :: as, b :: bs => if a < b then true else if b < a then false else listLtChar as bs

/-- Strict `createdAt` comparison used by the `runsForDog` sort comparator
`(a, b) => a.createdAt.localeCompare(b.createdAt)`. -/
def runCreatedLt (a b : Run) : Bool :=
  listLtChar a.createdAt.data b.createdAt.data

/-- `runsForDog` from `src/app.js`: the dog's runs sorted by
`a.createdAt.localeCompare(b.createdAt)` (lexicographic on these strings). -/
def runsForDog (st : Store) (dogId : String) : List Run :=
  sortByLt runCreatedLt (st.runs.filter (fun r => r.dogId = dogId))

/-- One step of the `reduce` in `bestRunForDog`:
`(best, r) => (!best || r.speedKmh > best.speedKmh ? r : best)`. -/
def pbStep (best : Option Run) (r : Run) : Option Run :=
  match best with
  | none => some r
  | some b => if b.speedKmh < r.speedKmh then some r else some b

/-- `bestRunForDog` from `src/app.js`: `null` when the dog has no runs, else
`rr.reduce((best, r) => (!best || r.speedKmh > best.speedKmh ? r : best), null)`. -/
def bestRunForDog (st : Store) (dogId : String) : Option Run :=
  let rr := runsForDog st dogId
  if rr.isEmpty then none else rr.foldl pbStep none

/-- `leaderboard` from `src/app.js`: one `(dog, pb)` row per dog whose
`bestRunForDog` is non-null, sorted by `(a, b) => b.pb.speedKmh - a.pb.speedKmh`
(descending best speed). -/
def leaderboard (st : Store) : List (Dog × Run) :=
  sortByLt (fun a b => b.2.speedKmh < a.2.speedKmh)
    (st.dogs.filterMap (fun d => (bestRunForDog st d.id).map (fun pb => (d, pb))))

/-! ## Store mutators touched by the claims -/

/-- `store.dogs[0]?.id || undefined` from the `deleteDog` branch of
`wireDogs`: the first remaining dog's id, with a falsy (empty) id — never
produced by `uid()` — collapsing to `undefined`. -/
def firstDogId (dogs : List Dog) : Option String :=
  match dogs.head? with
  | none => none
  | some d => if d.id = "" then none else some d.id

/-- The `deleteDog` action of `wireDogs` (`src/app.js`): filters the dog out,
filters its runs out, and when the deleted dog was active re-points
`activeDogId` at `store.dogs[0]?.id || undefined`. -/
def deleteDog (st : Store) (dogId : String) : Store :=
  let dogs := st.dogs.filter (fun d => d.id ≠ dogId)
  let runs := st.runs.filter (fun r => r.dogId ≠ dogId)
  let settings :=
    if st.settings.activeDogId = some dogId then
      { st.settings with activeDogId := firstDogId dogs }
    else st.settings
  { st with dogs := dogs, runs := runs, settings := settings }

/-- Insertion-order deduplication, as `Array.from(new Set(raw))` (a JS `Set`
keeps the first occurrence of each element, in insertion order). -/
def dedupFirst (l : List Int) : List Int :=
  l.foldl (fun acc x => if x ∈ acc then acc else acc ++ [x]) []

/-- The cleaned distance list of the `#distForm` submit handler: the parsed
entries (`none` models a `NaN` from `parseInt`, dropped by
`Number.isFinite`), kept when positive, deduplicated, first 12. -/
def normalizeDistances (entries : List (Option Int)) : List Int :=
  (dedupFirst ((entries.filterMap id).filter (fun n => 0 < n))).take 12

/-- The `#distForm` submit handler of `wireSettings` (`src/app.js`): an empty
cleaned list is rejected (store untouched); otherwise it becomes
`store.distances`, and a default distance no longer present falls back to
`store.distances[0]`. -/
def setDistances (st : Store) (entries : List (Option Int)) : Store :=
  let uniq := normalizeDistances entries
  if uniq.isEmpty then st
  else
    let settings :=
      if st.settings.defaultDistanceM ∈ uniq then st.settings
      else { st.settings with defaultDistanceM := uniq.headI }
    { st with distances := uniq, settings := settings }

/-! ## Timer (the mutable `timer` object of `src/app.js`) -/

/-- The `timer` global: `{running, start, elapsed}` (the `raf` handle is
display plumbing).  Times are milliseconds. -/
structure Timer where
  running : Bool
  start : ℚ
  elapsed : ℚ
deriving DecidableEq, Repr

/-- The `#manualForm` submit handler of `wireRecord` (`src/app.js`), after
`parseTimeString`: `ms == null || ms <= 0` is rejected with no mutation;
otherwise `timer.elapsed = ms; timer.running = false` (any in-progress run
is cancelled). -/
def setManual (t : Timer) (ms : Option ℚ) : Timer :=
  match ms with
  | none => t
  | some v => if v ≤ 0 then t else { t with elapsed := v, running := false }

/-- The run record built by the `#saveRunBtn` handler of `wireRecord`:
`timeMs: Math.round(timer.elapsed)`,
`speedKmh: round(speedKmh(distanceM, timer.elapsed), 4)`. -/
def mkRun (dogId : String) (distanceM : Int) (sport notes : String)
    (elapsed : ℚ) (id createdAt : String) : Run :=
  { id := id
    dogId := dogId
    distanceM := distanceM
    timeMs := (jsRound elapsed : ℚ)
    speedKmh := roundTo (speedKmh (distanceM : ℚ) elapsed) 4
    sport := sport
    notes := notes
    createdAt := createdAt }

/-- The `#saveRunBtn` handler of `wireRecord` (`src/app.js`): rejected when
there is no dog, while the timer runs, or without a recorded time; otherwise
the new run is pushed onto `store.runs`. -/
def saveRun (st : Store) (t : Timer) (dogId : String) (distanceM : Int)
    (sport notes : String) (id createdAt : String) : Store :=
  if st.dogs.isEmpty then st
  else if t.running then st
  else if t.elapsed ≤ 0 then st
  else { st with runs := st.runs ++ [mkRun dogId distanceM sport notes t.elapsed id createdAt] }

/-! ## General lemmas about the stable sort -/

theorem mem_insertSorted (lt : α → α → Bool) (x a : α) (l : List α) :
    a ∈ insertSorted lt x l ↔ a = x ∨ a ∈ l := by
  induction l with
  | nil => simp [insertSorted]
  | cons y ys ih =>
    by_cases h : lt x y
    · simp [insertSorted, h]
    · simp [insertSorted, h, ih]
      tauto

theorem mem_sortByLt_aux (lt : α → α → Bool) (l acc : List α) (a : α) :
    a ∈ List.foldl (fun acc x => insertSorted lt x acc) acc l ↔ a ∈ acc ∨ a ∈ l := by
  induction l generalizing acc with
  | nil => simp
  | cons x xs ih =>
    simp only [List.foldl_cons, ih, mem_insertSorted, List.mem_cons]
    tauto

theorem mem_sortByLt (lt : α → α → Bool) (l : List α) (a : α) :
    a ∈ sortByLt lt l ↔ a ∈ l := by
  simp [sortByLt, mem_sortByLt_aux]

theorem insertSorted_append (lt : α → α → Bool) (x : α) (l : List α)
    (h : ∀ y ∈ l, lt x y = false) : insertSorted lt x l = l ++ [x] := by
  induction l with
  | nil => simp [insertSorted]
  | cons y ys ih =>
    have hy : lt x y = false := h y (by simp)
    simp only [insertSorted, hy, Bool.false_eq_true, if_false, List.cons_append,
      List.cons.injEq, true_and]
    exact ih fun z hz => h z (by simp [hz])

theorem sortByLt_aux_of_sorted (lt : α → α → Bool) (l acc : List α)
    (hacc : ∀ x ∈ l, ∀ y ∈ acc, lt x y = false)
    (hl : l.Pairwise (fun a b => lt b a = false)) :
    List.foldl (fun acc x => insertSorted lt x acc) acc l = acc ++ l := by
  induction l generalizing acc with
  | nil => simp
  | cons x xs ih =>
    rw [List.pairwise_cons] at hl
    rw [List.foldl_cons,
      insertSorted_append lt x acc (fun y hy => hacc x (by simp) y hy),
      ih (acc ++ [x])]
    · simp
    · intro z hz y hy
      rcases List.mem_append.mp hy with h | h
      · exact hacc z (by simp [hz]) y h
      · rcases List.mem_singleton.mp h with rfl
        exact hl.1 z hz
    · exact hl.2

theorem sortByLt_of_sorted (lt : α → α → Bool) (l : List α)
    (hl : l.Pairwise (fun a b => lt b a = false)) :
    sortByLt lt l = l := by
  simpa [sortByLt] using sortByLt_aux_of_sorted lt l [] (by simp) hl

/-! ## The `reduce` of `bestRunForDog` returns the first maximum -/

theorem pbStep_foldl_firstMax (l : List Run) (b : Run) :
    ∃ r l1 l2, List.foldl pbStep (some b) l = some r ∧
      b :: l = l1 ++ r :: l2 ∧
      (∀ x ∈ l1, x.speedKmh < r.speedKmh) ∧
      (∀ x ∈ l2, x.speedKmh ≤ r.speedKmh) := by
  induction l generalizing b with
  | nil => exact ⟨b, [], [], rfl, rfl, by simp, by simp⟩
  | cons x xs ih =>
    by_cases h : b.speedKmh < x.speedKmh
    · obtain ⟨r, l1, l2, hfold, hsplit, hlt, hle⟩ := ih x
      have hxr : x.speedKmh ≤ r.speedKmh := by
        cases l1 with
        | nil =>
          simp only [List.nil_append, List.cons.injEq] at hsplit
          rw [hsplit.1]
        | cons y l1' =>
          simp only [List.cons_append, List.cons.injEq] at hsplit
          exact le_of_lt (hsplit.1 ▸ hlt y (by simp))
      refine ⟨r, b :: l1, l2, ?_, ?_, ?_, hle⟩
      · simpa [pbStep, h] using hfold
      · simp [hsplit]
      · intro z hz
        rcases List.mem_cons.mp hz with rfl | hz'
        · exact lt_of_lt_of_le h hxr
        · exact hlt z hz'
    · obtain ⟨r, l1, l2, hfold, hsplit, hlt, hle⟩ := ih b
      have hfold' : List.foldl pbStep (some b) (x :: xs) = some r := by
        simpa [pbStep, h] using hfold
      cases l1 with
      | nil =>
        simp only [List.nil_append, List.cons.injEq] at hsplit
        refine ⟨r, [], x :: l2, hfold', ?_, by simp, ?_⟩
        · simp [hsplit.1, hsplit.2]
        · intro z hz
          rcases List.mem_cons.mp hz with rfl | hz'
          · exact hsplit.1 ▸ le_of_not_lt h
          · exact hle z hz'
      | cons y l1' =>
        simp only [List.cons_append, List.cons.injEq] at hsplit
        have hbr : b.speedKmh < r.speedKmh := hsplit.1 ▸ hlt y (by simp)
        refine ⟨r, b :: x :: l1', l2, hfold', ?_, ?_, hle⟩
        · simp [hsplit.2]
        · intro z hz
          rcases List.mem_cons.mp hz with rfl | hz'
          · exact hbr
          · rcases List.mem_cons.mp hz' with rfl | hz''
            · exact lt_of_le_of_lt (le_of_not_lt h) hbr
            · exact hlt z (by simp [hz''])

/-- C6: for every dog with at least one run, `bestRun` returns the run with
the strictly greatest stored speed, and on ties the earliest-created one
(the first occurrence of the maximum in chronological creation-order
iteration); with no runs it returns `none`.  The hypothesis states that the
`runs` list (creation order) is chronological — no later-created run carries
a strictly smaller `createdAt` — under which the `createdAt` sort of
`runsForDog` is the identity and iteration order is creation order. -/
theorem claim_C6_bestRun_first_max (st : Store) (dogId : String)
    (h : st.runs.Pairwise (fun a b => runCreatedLt b a = false)) :
    runsForDog st dogId = st.runs.filter (fun r => r.dogId = dogId) ∧
    (st.runs.filter (fun r => r.dogId = dogId) = [] → bestRunForDog st dogId = none) ∧
    (st.runs.filter (fun r => r.dogId = dogId) ≠ [] →
      ∃ r l1 l2, bestRunForDog st dogId = some r ∧
        st.runs.filter (fun r => r.dogId = dogId) = l1 ++ r :: l2 ∧
        (∀ x ∈ l1, x.speedKmh < r.speedKmh) ∧
        (∀ x ∈ l2, x.speedKmh ≤ r.speedKmh)) := by
  have heq : runsForDog st dogId = st.runs.filter (fun r => r.dogId = dogId) :=
    sortByLt_of_sorted runCreatedLt _ (h.filter _)
  refine ⟨heq, ?_, ?_⟩
  · intro hnil
    simp [bestRunForDog, heq, hnil]
  · intro hne
    rcases hl : st.runs.filter (fun r => r.dogId = dogId) with _ | ⟨b, l⟩
    · exact absurd hl hne
    · obtain ⟨r, l1, l2, hfold, hsplit, hlt, hle⟩ := pbStep_foldl_firstMax l b
      refine ⟨r, l1, l2, ?_, hl.trans hsplit, hlt, hle⟩
      simp only [bestRunForDog, heq, hl, List.isEmpty_cons, if_false, Bool.false_eq_true]
      simpa [pbStep] using hfold

/-- Concrete witness store for C6: one dog, three runs created in
chronological order with speeds 10, 15, 15 (the spec's ranking example). -/
def c6Dog : Dog :=
  { id := "d1", name := "Vada", breed := "", notes := "", photoDataUrl := none,
    createdAt := "2024-01-01T00:00:00.000Z" }

/-- First run of the C6 witness (speed 10). -/
def c6Run1 : Run :=
  { id := "r1", dogId := "d1", distanceM := 100, timeMs := 36000, speedKmh := 10,
    sport := "Sprint", notes := "", createdAt := "2024-02-01T00:00:00.000Z" }

/-- Second run of the C6 witness (speed 15, earliest maximum). -/
def c6Run2 : Run :=
  { id := "r2", dogId := "d1", distanceM := 100, timeMs := 24000, speedKmh := 15,
    sport := "Sprint", notes := "", createdAt := "2024-02-02T00:00:00.000Z" }

/-- Third run of the C6 witness (speed 15 again, created later). -/
def c6Run3 : Run :=
  { id := "r3", dogId := "d1", distanceM := 100, timeMs := 24000, speedKmh := 15,
    sport := "Sprint", notes := "", createdAt := "2024-02-03T00:00:00.000Z" }

/-- The C6 witness store. -/
def c6Store : Store :=
  { defaultStore with dogs := [c6Dog], runs := [c6Run1, c6Run2, c6Run3] }

/-- Witness for C6: the hypothesis holds for the concrete store, the theorem
applies, and indeed the second run (first occurrence of the maximal speed)
is the personal best, not the third. -/
theorem claim_C6_witness :
    (c6Store.runs.Pairwise (fun a b => runCreatedLt b a = false) ∧
      (runsForDog c6Store "d1" = c6Store.runs.filter (fun r => r.dogId = "d1") ∧
        (c6Store.runs.filter (fun r => r.dogId = "d1") = [] → bestRunForDog c6Store "d1" = none) ∧
        (c6Store.runs.filter (fun r => r.dogId = "d1") ≠ [] →
          ∃ r l1 l2, bestRunForDog c6Store "d1" = some r ∧
            c6Store.runs.filter (fun r => r.dogId = "d1") = l1 ++ r :: l2 ∧
            (∀ x ∈ l1, x.speedKmh < r.speedKmh) ∧
            (∀ x ∈ l2, x.speedKmh ≤ r.speedKmh)))) ∧
    bestRunForDog c6Store "d1" = some c6Run2 := by
  refine ⟨⟨by decide, claim_C6_bestRun_first_max c6Store "d1" (by decide)⟩, by decide⟩

/-- C8: `speedKmh` follows the formula `distance * 3.6 / (durationMs/1000)`
for positive durations and returns `0` for durations `≤ 0`; in particular
`speedKmh(100, 10000) = 36` and `speedKmh(100, 0) = 0`.  (In this exact
rational model no infinity or NaN exists; the guard is what keeps the JS
original from dividing by zero.) -/
theorem claim_C8_speedKmh :
    (∀ d t : ℚ, (0 < t → speedKmh d t = d * (3.6 : ℚ) / (t / 1000)) ∧
      (t ≤ 0 → speedKmh d t = 0)) ∧
    speedKmh 100 10000 = 36 ∧ speedKmh 100 0 = 0 := by
  refine ⟨fun d t => ⟨fun h => ?_, fun h => ?_⟩, by norm_num [speedKmh], by norm_num [speedKmh]⟩
  · have hpos : ¬ (t / 1000 ≤ 0) := not_le.mpr (by positivity)
    simp [speedKmh, hpos]
  · have hnp : t / 1000 ≤ 0 := by linarith
    simp [speedKmh, hnp]

/-- Witness for C8 at concrete inputs: a positive duration takes the formula
branch and a negative duration returns `0`. -/
theorem claim_C8_witness :
    speedKmh 5 2000 = 5 * (3.6 : ℚ) / (2000 / 1000) ∧ speedKmh 7 (-3) = 0 :=
  ⟨(claim_C8_speedKmh.1 5 2000).1 (by norm_num),
   (claim_C8_speedKmh.1 7 (-3)).2 (by norm_num)⟩

/-- Counterexample to C4 as stated: with the timer Running (elapsed 3 ms),
`setManual 5000` is not rejected — the manual-form handler has no
`timer.running` guard — so the state mutates: the timer stops and `elapsed`
becomes 5000. -/
theorem claim_C4_counterexample :
    (Timer.mk true 0 3).running = true ∧
    setManual (Timer.mk true 0 3) (some 5000) ≠ Timer.mk true 0 3 ∧
    (setManual (Timer.mk true 0 3) (some 5000)).running = false ∧
    (setManual (Timer.mk true 0 3) (some 5000)).elapsed = 5000 := by
  refine ⟨rfl, ?_, ?_, ?_⟩ <;> decide

/-- C4 amended: `setManual` is accepted in every timer state — including
while Running, where it cancels the run — overwriting `elapsed` with the
given duration and entering Stopped; a non-positive (or unparsable) duration
is rejected with no state mutation. -/
theorem claim_C4_setManual (t : Timer) (v : ℚ) :
    (0 < v → setManual t (some v) = { t with elapsed := v, running := false }) ∧
    (v ≤ 0 → setManual t (some v) = t) ∧
    setManual t none = t := by
  refine ⟨fun h => ?_, fun h => ?_, rfl⟩
  · simp [setManual, not_le.mpr h]
  · simp [setManual, h]

/-- Witness for C4 amended at concrete inputs. -/
theorem claim_C4_witness :
    setManual (Timer.mk true 0 3) (some 5000) = Timer.mk false 0 5000 ∧
    setManual (Timer.mk true 0 3) (some (-2)) = Timer.mk true 0 3 := by
  constructor
  · have h := (claim_C4_setManual (Timer.mk true 0 3) 5000).1 (by norm_num)
    simpa using h
  · have h := (claim_C4_setManual (Timer.mk true 0 3) (-2)).2.1 (by norm_num)
    simpa using h

/-- Payload for the C5 counterexample: it carries a `version` field, but that
field is `0`, which is JS-falsy. -/
def c5Payload : Store :=
  { defaultStore with version := some 0, activeTab := "settings" }

/-- Counterexample to C5 as stated: a payload carrying a version marker whose
value is `0` is rejected by `!data.version` — the store stays unchanged and
is not replaced by the parsed payload. -/
theorem claim_C5_counterexample :
    c5Payload.version.isSome = true ∧
    importSnapshot (some c5Payload) defaultStore = defaultStore ∧
    importSnapshot (some c5Payload) defaultStore ≠ c5Payload := by
  refine ⟨rfl, ?_, ?_⟩ <;> decide

/-- C5 amended: an unparsable payload or one whose `version` is absent or
falsy (`0`) is rejected — the current store is returned untouched — while a
payload with a truthy (nonzero) version marker fully replaces the store. -/
theorem claim_C5_importSnapshot (cur : Store) (parsed : Option Store) :
    (parsed = none → importSnapshot parsed cur = cur) ∧
    (∀ s, parsed = some s → versionTruthy s.version = false →
      importSnapshot parsed cur = cur) ∧
    (∀ s, parsed = some s → versionTruthy s.version = true →
      importSnapshot parsed cur = s) := by
  refine ⟨fun h => ?_, fun s hs hv => ?_, fun s hs hv => ?_⟩
  · simp [importSnapshot, h]
  · simp [importSnapshot, hs, hv]
  · simp [importSnapshot, hs, hv]

/-- A payload with a truthy version used by the C5 witness. -/
def c5Good : Store :=
  { defaultStore with version := some 2, activeTab := "charts" }

/-- Witness for C5 amended at concrete inputs: `none` and a falsy-version
payload leave the store unchanged, a truthy-version payload replaces it. -/
theorem claim_C5_witness :
    importSnapshot none defaultStore = defaultStore ∧
    importSnapshot (some c5Payload) defaultStore = defaultStore ∧
    importSnapshot (some c5Good) defaultStore = c5Good := by
  refine ⟨(claim_C5_importSnapshot defaultStore none).1 rfl,
    (claim_C5_importSnapshot defaultStore (some c5Payload)).2.1 c5Payload rfl (by decide),
    (claim_C5_importSnapshot defaultStore (some c5Good)).2.2 c5Good rfl (by decide)⟩

/-- A run whose `dogId` matches no dog, used for the C3 counterexample. -/
def c3OrphanRun : Run :=
  { id := "r9", dogId := "ghost", distanceM := 100, timeMs := 10000, speedKmh := 36,
    sport := "Sprint", notes := "", createdAt := "2024-03-01T00:00:00.000Z" }

/-- A versioned payload containing only the orphan run and no dogs. -/
def c3Payload : Store :=
  { defaultStore with dogs := [], runs := [c3OrphanRun] }

/-- Counterexample to C3 as stated: a versioned payload whose only run
references a missing dog survives both load and import unchanged — the run
is not dropped, leaving a store in which the run references no live dog. -/
theorem claim_C3_counterexample :
    loadStore (some c3Payload) = c3Payload ∧
    importSnapshot (some c3Payload) defaultStore = c3Payload ∧
    c3OrphanRun ∈ (loadStore (some c3Payload)).runs ∧
    ∀ d ∈ (loadStore (some c3Payload)).dogs, d.id ≠ c3OrphanRun.dogId := by
  refine ⟨?_, ?_, ?_, ?_⟩ <;> decide

/-- C3 amended: load and import perform no referential-integrity filtering —
any payload with a truthy version is taken over verbatim, its `runs` list
included, whether or not each run's dog identifier resolves to a dog. -/
theorem claim_C3_no_orphan_filter (s : Store) (h : versionTruthy s.version = true) :
    loadStore (some s) = s ∧ ∀ cur, importSnapshot (some s) cur = s := by
  constructor
  · simp [loadStore, h]
  · intro cur
    simp [importSnapshot, h]

/-- Witness for C3 amended at the orphan payload. -/
theorem claim_C3_witness :
    loadStore (some c3Payload) = c3Payload ∧
    ∀ cur, importSnapshot (some c3Payload) cur = c3Payload :=
  claim_C3_no_orphan_filter c3Payload (by decide)

/-! ## Lemmas about `dedupFirst` / `normalizeDistances` -/

theorem mem_dedupFirst_aux (l acc : List Int) (x : Int) :
    x ∈ l.foldl (fun acc y => if y ∈ acc then acc else acc ++ [y]) acc ↔
      x ∈ acc ∨ x ∈ l := by
  induction l generalizing acc with
  | nil => simp
  | cons y ys ih =>
    by_cases hy : y ∈ acc
    · simp only [List.foldl_cons, hy, if_true, ih, List.mem_cons]
      constructor
      · tauto
      · rintro (h | rfl | h)
        · exact Or.inl h
        · exact Or.inl hy
        · exact Or.inr h
    · simp only [List.foldl_cons, hy, if_false, ih, List.mem_append,
        List.mem_singleton, List.mem_cons]
      tauto

theorem mem_dedupFirst (l : List Int) (x : Int) : x ∈ dedupFirst l ↔ x ∈ l := by
  simp [dedupFirst, mem_dedupFirst_aux]

theorem nodup_dedupFirst_aux (l acc : List Int) (hacc : acc.Nodup) :
    (l.foldl (fun acc y => if y ∈ acc then acc else acc ++ [y]) acc).Nodup := by
  induction l generalizing acc with
  | nil => simpa
  | cons y ys ih =>
    rw [List.foldl_cons]
    by_cases hy : y ∈ acc
    · rw [if_pos hy]
      exact ih acc hacc
    · rw [if_neg hy]
      refine ih _ ?_
      rw [List.nodup_append]
      exact ⟨hacc, List.nodup_singleton y, fun a ha hb => hy ((List.mem_singleton.mp hb) ▸ ha)⟩

theorem nodup_dedupFirst (l : List Int) : (dedupFirst l).Nodup :=
  nodup_dedupFirst_aux l [] List.nodup_nil

/-- Counterexample to C2 as stated: submitting `[200, 50]` to a store whose
default distance `100` disappears makes the default `200` — the FIRST newly
configured distance (submission order) — not the smallest one, `50`. -/
theorem claim_C2_counterexample :
    (setDistances defaultStore [some 200, some 50]).distances = [200, 50] ∧
    (setDistances defaultStore [some 200, some 50]).settings.defaultDistanceM = 200 ∧
    (200 : Int) ≠ 50 := by
  refine ⟨?_, ?_, ?_⟩ <;> decide

/-- C2 amended: for a submitted list with at least one positive entry,
`setDistances` stores the positive entries deduplicated (first occurrences,
submission order) and capped at 12, and a default distance no longer present
falls back to the FIRST stored distance (submission order), not the
smallest; a list with no positive entries is rejected with no change. -/
theorem claim_C2_setDistances (st : Store) (entries : List (Option Int)) :
    (normalizeDistances entries = [] → setDistances st entries = st) ∧
    (normalizeDistances entries ≠ [] →
      (setDistances st entries).distances = normalizeDistances entries ∧
      (setDistances st entries).distances.Nodup ∧
      (setDistances st entries).distances.length ≤ 12 ∧
      (∀ x ∈ (setDistances st entries).distances, 0 < x ∧ some x ∈ entries) ∧
      (st.settings.defaultDistanceM ∈ normalizeDistances entries →
        (setDistances st entries).settings.defaultDistanceM = st.settings.defaultDistanceM) ∧
      (st.settings.defaultDistanceM ∉ normalizeDistances entries →
        (setDistances st entries).settings.defaultDistanceM =
          (normalizeDistances entries).headI)) := by
  constructor
  · intro h
    simp [setDistances, h]
  · intro hne
    have hemp : (normalizeDistances entries).isEmpty = false := by
      rcases h : normalizeDistances entries with _ | ⟨a, l⟩
      · exact absurd h hne
      · simp
    have hdist : (setDistances st entries).distances = normalizeDistances entries := by
      by_cases hmem : st.settings.defaultDistanceM ∈ normalizeDistances entries <;>
        simp [setDistances, hemp, hmem]
    refine ⟨hdist, ?_, ?_, ?_, ?_, ?_⟩
    · rw [hdist]
      exact (nodup_dedupFirst _).sublist (List.take_sublist _ _)
    · rw [hdist]
      simp [normalizeDistances]
    · intro x hx
      rw [hdist] at hx
      have hx' : x ∈ dedupFirst (((entries.filterMap id).filter (fun n => 0 < n))) :=
        (List.take_sublist _ _).mem hx
      rw [mem_dedupFirst] at hx'
      rw [List.mem_filter] at hx'
      refine ⟨by simpa using hx'.2, ?_⟩
      rcases List.mem_filterMap.mp hx'.1 with ⟨a, ha, hax⟩
      exact hax ▸ ha
    · intro hmem
      simp [setDistances, hemp, hmem]
    · intro hmem
      simp [setDistances, hemp, hmem]

/-- Witness for C2 amended: submitting `[50, 100, 50, -3, NaN]` to the
default store keeps default distance 100 (still present) and stores the
deduplicated positive list `[50, 100]`. -/
theorem claim_C2_witness :
    normalizeDistances [some 50, some 100, some 50, some (-3), none] ≠ [] ∧
    (setDistances defaultStore [some 50, some 100, some 50, some (-3), none]).distances
      = normalizeDistances [some 50, some 100, some 50, some (-3), none] ∧
    (setDistances defaultStore [some 50, some 100, some 50, some (-3), none]).distances.Nodup ∧
    (setDistances defaultStore [some 50, some 100, some 50, some (-3), none]).distances.length ≤ 12 ∧
    (∀ x ∈ (setDistances defaultStore [some 50, some 100, some 50, some (-3), none]).distances,
      0 < x ∧ some x ∈ [some 50, some 100, some 50, some (-3), none]) ∧
    (defaultStore.settings.defaultDistanceM ∈
        normalizeDistances [some 50, some 100, some 50, some (-3), none] →
      (setDistances defaultStore [some 50, some 100, some 50, some (-3), none]).settings.defaultDistanceM
        = defaultStore.settings.defaultDistanceM) ∧
    (defaultStore.settings.defaultDistanceM ∉
        normalizeDistances [some 50, some 100, some 50, some (-3), none] →
      (setDistances defaultStore [some 50, some 100, some 50, some (-3), none]).settings.defaultDistanceM
        = (normalizeDistances [some 50, some 100, some 50, some (-3), none]).headI) :=
  ⟨by decide,
    (claim_C2_setDistances defaultStore [some 50, some 100, some 50, some (-3), none]).2
      (by decide)⟩

/-- Dog "a" of the C1 counterexample store. -/
def c1DogA : Dog :=
  { id := "a", name := "Asta", breed := "", notes := "", photoDataUrl := none,
    createdAt := "2024-01-01T00:00:00.000Z" }

/-- Dog "b" of the C1 counterexample store. -/
def c1DogB : Dog :=
  { id := "b", name := "Bolt", breed := "", notes := "", photoDataUrl := none,
    createdAt := "2024-01-02T00:00:00.000Z" }

/-- C1 counterexample store: two dogs, the active one is "a". -/
def c1Store : Store :=
  { defaultStore with
      dogs := [c1DogA, c1DogB]
      settings := { defaultStore.settings with activeDogId := some "a" } }

/-- Counterexample to C1 as stated: deleting the currently-active dog "a"
does not clear the active-dog reference — `deleteDog` re-points it at the
first remaining dog (`store.dogs[0]?.id || undefined`), here "b". -/
theorem claim_C1_counterexample :
    c1Store.settings.activeDogId = some "a" ∧
    (deleteDog c1Store "a").settings.activeDogId = some "b" ∧
    (deleteDog c1Store "a").settings.activeDogId ≠ none := by
  refine ⟨rfl, ?_, ?_⟩ <;> decide

/-- C1 amended: when the deleted dog is the currently-active dog, `deleteDog`
removes that dog, removes every run whose dog identifier equals the deleted
dog's identifier, and re-points the active-dog reference at the first
remaining dog's identifier (`none` only when no dogs remain); afterwards
`leaderboard()` contains no entry for the deleted dog. -/
theorem claim_C1_deleteDog (st : Store) (dogId : String)
    (h : st.settings.activeDogId = some dogId) :
    (∀ d ∈ (deleteDog st dogId).dogs, d.id ≠ dogId) ∧
    (∀ r ∈ (deleteDog st dogId).runs, r.dogId ≠ dogId) ∧
    (deleteDog st dogId).settings.activeDogId = firstDogId ((deleteDog st dogId).dogs) ∧
    (∀ e ∈ leaderboard (deleteDog st dogId), e.1.id ≠ dogId) := by
  have hdogs : ∀ d ∈ (deleteDog st dogId).dogs, d.id ≠ dogId := by
    intro d hd
    simp only [deleteDog, List.mem_filter] at hd
    simpa using hd.2
  refine ⟨hdogs, ?_, ?_, ?_⟩
  · intro r hr
    simp only [deleteDog, List.mem_filter] at hr
    simpa using hr.2
  · simp [deleteDog, h]
  · intro e he
    rw [leaderboard, mem_sortByLt] at he
    rcases List.mem_filterMap.mp he with ⟨d, hd, hde⟩
    rcases Option.map_eq_some'.mp hde with ⟨pb, _, hpb⟩
    have : e.1 = d := by rw [← hpb]
    exact this ▸ hdogs d hd

/-- Witness for C1 amended at the two-dog store with active dog "a". -/
theorem claim_C1_witness :
    c1Store.settings.activeDogId = some "a" ∧
    ((∀ d ∈ (deleteDog c1Store "a").dogs, d.id ≠ "a") ∧
      (∀ r ∈ (deleteDog c1Store "a").runs, r.dogId ≠ "a") ∧
      (deleteDog c1Store "a").settings.activeDogId = firstDogId ((deleteDog c1Store "a").dogs) ∧
      (∀ e ∈ leaderboard (deleteDog c1Store "a"), e.1.id ≠ "a")) :=
  ⟨rfl, claim_C1_deleteDog c1Store "a" rfl⟩

/-! ## C9: what the save-run handler stores -/

/-- C9: a saved run stores `timeMs = Math.round(timer.elapsed)` (nearest
millisecond) while its `speedKmh` is computed from the UNROUNDED elapsed
duration and then rounded to 4 decimals; hence at elapsed `10400.5` ms over
100 m the stored speed (34.6137) differs from `speedKmh` recomputed from the
stored integer `timeMs = 10401` (360000/10401 km/h ≈ 34.6121). -/
theorem claim_C9_savedRun_rounding :
    (∀ (st : Store) (t : Timer) (dogId : String) (distanceM : Int)
      (sport notes rid createdAt : String),
      st.dogs.isEmpty = false → t.running = false → 0 < t.elapsed →
      (saveRun st t dogId distanceM sport notes rid createdAt).runs
        = st.runs ++ [mkRun dogId distanceM sport notes t.elapsed rid createdAt]) ∧
    (∀ (dogId : String) (distanceM : Int) (sport notes rid createdAt : String) (elapsed : ℚ),
      (mkRun dogId distanceM sport notes elapsed rid createdAt).timeMs
          = (jsRound elapsed : ℚ) ∧
      (mkRun dogId distanceM sport notes elapsed rid createdAt).speedKmh
          = roundTo (speedKmh (distanceM : ℚ) elapsed) 4) ∧
    ((mkRun "d1" 100 "Sprint" "" (20801 / 2) "r1" "ts").timeMs = 10401 ∧
      (mkRun "d1" 100 "Sprint" "" (20801 / 2) "r1" "ts").speedKmh = 346137 / 10000 ∧
      speedKmh 100 ((mkRun "d1" 100 "Sprint" "" (20801 / 2) "r1" "ts").timeMs)
        = 360000 / 10401 ∧
      (mkRun "d1" 100 "Sprint" "" (20801 / 2) "r1" "ts").speedKmh
        ≠ speedKmh 100 ((mkRun "d1" 100 "Sprint" "" (20801 / 2) "r1" "ts").timeMs)) := by
  have h100 : ((100 : Int) : ℚ) = 100 := by norm_num
  have hspeed : speedKmh 100 (20801 / 2) = 720000 / 20801 := by
    rw [speedKmh]
    norm_num
  have hround : jsRound (20801 / 2) = 10401 := by
    rw [jsRound, Int.floor_eq_iff]
    norm_num
  have hfloor : jsRound (720000 / 20801 * 10 ^ 4) = 346137 := by
    rw [jsRound, Int.floor_eq_iff]
    norm_num
  have htime : (mkRun "d1" 100 "Sprint" "" (20801 / 2) "r1" "ts").timeMs = 10401 := by
    show (jsRound (20801 / 2 : ℚ) : ℚ) = 10401
    rw [hround]
    norm_num
  have hsp : (mkRun "d1" 100 "Sprint" "" (20801 / 2) "r1" "ts").speedKmh = 346137 / 10000 := by
    show roundTo (speedKmh ((100 : Int) : ℚ) (20801 / 2)) 4 = 346137 / 10000
    rw [roundTo, h100, hspeed, hfloor]
    norm_num
  have hre : speedKmh 100 ((10401 : ℚ)) = 360000 / 10401 := by
    rw [speedKmh]
    norm_num
  refine ⟨?_, fun _ _ _ _ _ _ _ => ⟨rfl, rfl⟩, htime, hsp, ?_, ?_⟩
  · intro st t dogId distanceM sport notes rid createdAt hd hr he
    simp [saveRun, hd, hr, not_le.mpr he]
  · rw [htime, hre]
  · rw [htime, hsp, hre]
    norm_num

/-- Dog used by the C9 witness store. -/
def c9Dog : Dog :=
  { id := "d1", name := "Rex", breed := "", notes := "", photoDataUrl := none,
    createdAt := "2024-01-01T00:00:00.000Z" }

/-- The C9 witness store (one dog, no runs yet). -/
def c9Store : Store :=
  { defaultStore with dogs := [c9Dog] }

/-- The C9 witness timer: stopped with elapsed `10400.5` ms. -/
def c9Timer : Timer :=
  { running := false, start := 0, elapsed := 20801 / 2 }

/-- Witness for C9: saving at the concrete timer state appends exactly the
run built by `mkRun` from the unrounded elapsed duration. -/
theorem claim_C9_witness :
    (saveRun c9Store c9Timer "d1" 100 "Sprint" "" "r1" "ts").runs
      = c9Store.runs ++ [mkRun "d1" 100 "Sprint" "" c9Timer.elapsed "r1" "ts"] :=
  claim_C9_savedRun_rounding.1 c9Store c9Timer "d1" 100 "Sprint" "" "r1" "ts"
    (by decide) rfl (by norm_num [c9Timer])

/-! ## Digit-string lemmas for the codec round trip -/

theorem digitVal_digitChar (d : Nat) (h : d ≤ 9) : digitVal (digitChar d) = d := by
  interval_cases d <;> decide

theorem isDigitChar_digitChar (d : Nat) (h : d ≤ 9) : isDigitChar (digitChar d) = true := by
  interval_cases d <;> decide

theorem natDigitsRevAux_congr (f₁ : Nat) :
    ∀ f₂ n, n < f₁ → n < f₂ → natDigitsRevAux f₁ n = natDigitsRevAux f₂ n := by
  induction f₁ with
  | zero => intro f₂ n h; omega
  | succ f ih =>
    intro f₂ n h1 h2
    cases f₂ with
    | zero => omega
    | succ g =>
      by_cases hn : n = 0
      · simp [natDigitsRevAux, hn]
      · simp only [natDigitsRevAux, hn, if_false]
        have hd : n / 10 < n := Nat.div_lt_self (Nat.pos_of_ne_zero hn) (by norm_num)
        rw [ih g (n / 10) (by omega) (by omega)]

theorem natDigitsRev_eq (n : Nat) (hn : n ≠ 0) :
    natDigitsRev n = digitChar (n % 10) :: natDigitsRev (n / 10) := by
  have hd : n / 10 < n := Nat.div_lt_self (Nat.pos_of_ne_zero hn) (by norm_num)
  show natDigitsRevAux (n + 1) n = _
  rw [natDigitsRevAux, if_neg hn]
  rw [natDigitsRevAux_congr n (n / 10 + 1) (n / 10) (by omega) (by omega)]
  rfl

theorem digitsToNat_append (l₁ l₂ : List Char) :
    digitsToNat (l₁ ++ l₂) =
      l₂.foldl (fun a c => a * 10 + digitVal c) (digitsToNat l₁) := by
  simp [digitsToNat, List.foldl_append]

theorem digitsToNat_concat (l : List Char) (c : Char) :
    digitsToNat (l ++ [c]) = digitsToNat l * 10 + digitVal c := by
  simp [digitsToNat_append, List.foldl_cons]

theorem digitsToNat_natDigitsRev (n : Nat) :
    digitsToNat (natDigitsRev n).reverse = n := by
  induction n using Nat.strong_induction_on with
  | _ n ih =>
    by_cases hn : n = 0
    · subst hn
      decide
    · have hd : n / 10 < n := Nat.div_lt_self (Nat.pos_of_ne_zero hn) (by norm_num)
      rw [natDigitsRev_eq n hn, List.reverse_cons, digitsToNat_concat,
        ih (n / 10) hd, digitVal_digitChar (n % 10) (by omega)]
      omega

theorem digitsToNat_natRepr (n : Nat) : digitsToNat (natRepr n) = n := by
  by_cases hn : n = 0
  · subst hn
    decide
  · rw [natRepr, if_neg hn, digitsToNat_natDigitsRev]

theorem mem_natDigitsRev_digit (n : Nat) :
    ∀ c ∈ natDigitsRev n, isDigitChar c = true := by
  induction n using Nat.strong_induction_on with
  | _ n ih =>
    by_cases hn : n = 0
    · subst hn
      intro c hc
      simp [natDigitsRev, natDigitsRevAux] at hc
    · have hd : n / 10 < n := Nat.div_lt_self (Nat.pos_of_ne_zero hn) (by norm_num)
      rw [natDigitsRev_eq n hn]
      intro c hc
      rcases List.mem_cons.mp hc with rfl | hc'
      · exact isDigitChar_digitChar (n % 10) (by omega)
      · exact ih (n / 10) hd c hc'

theorem mem_natRepr_digit (n : Nat) : ∀ c ∈ natRepr n, isDigitChar c = true := by
  by_cases hn : n = 0
  · subst hn
    intro c hc
    rcases List.mem_singleton.mp hc with rfl
    decide
  · rw [natRepr, if_neg hn]
    intro c hc
    exact mem_natDigitsRev_digit n c (List.mem_reverse.mp hc)

theorem mem_pad2_digit (l : List Char) (h : ∀ c ∈ l, isDigitChar c = true) :
    ∀ c ∈ pad2 l, isDigitChar c = true := by
  intro c hc
  rw [pad2] at hc
  by_cases hl : l.length < 2
  · rw [if_pos hl] at hc
    rcases List.mem_append.mp hc with hr | hl'
    · rcases List.eq_of_mem_replicate hr with rfl
      decide
    · exact h c hl'
  · rw [if_neg hl] at hc
    exact h c hc

theorem pad2_ne_nil (l : List Char) : pad2 l ≠ [] := by
  rw [pad2]
  by_cases hl : l.length < 2
  · rw [if_pos hl]
    intro hcon
    rcases List.append_eq_nil.mp hcon with ⟨h1, h2⟩
    have := congrArg List.length h1
    simp [List.length_replicate] at this
    omega
  · rw [if_neg hl]
    intro hcon
    subst hcon
    simp at hl

theorem digitsToNat_replicate_zero (k : Nat) (l : List Char) :
    digitsToNat (List.replicate k '0' ++ l) = digitsToNat l := by
  induction k with
  | zero => simp
  | succ j ih =>
    have h0 : (0 : Nat) * 10 + digitVal '0' = 0 := by decide
    calc digitsToNat (List.replicate (j + 1) '0' ++ l)
        = List.foldl (fun a c => a * 10 + digitVal c) (0 * 10 + digitVal '0')
            (List.replicate j '0' ++ l) := by
          rw [List.replicate_succ, List.cons_append]
          rfl
      _ = digitsToNat (List.replicate j '0' ++ l) := by rw [h0]; rfl
      _ = digitsToNat l := ih

theorem digitsToNat_pad2 (l : List Char) : digitsToNat (pad2 l) = digitsToNat l := by
  rw [pad2]
  by_cases hl : l.length < 2
  · rw [if_pos hl, digitsToNat_replicate_zero]
  · rw [if_neg hl]

theorem pad2_natRepr_length (n : Nat) (h : n < 100) :
    (pad2 (natRepr n)).length = 2 := by
  have hlen : (natRepr n).length = 1 ∨ (natRepr n).length = 2 := by
    by_cases hn : n = 0
    · subst hn
      left
      decide
    · rw [natRepr, if_neg hn]
      by_cases h10 : n < 10
      · left
        rw [natDigitsRev_eq n hn]
        have : n / 10 = 0 := by omega
        simp [this, natDigitsRev, natDigitsRevAux]
      · right
        rw [natDigitsRev_eq n hn]
        have h1 : n / 10 ≠ 0 := by omega
        rw [natDigitsRev_eq (n / 10) h1]
        have : n / 10 / 10 = 0 := by omega
        simp [this, natDigitsRev, natDigitsRevAux]
  rw [pad2]
  rcases hlen with h1 | h2
  · rw [if_pos (by omega), List.length_append, List.length_replicate]
    omega
  · rw [if_neg (by omega)]
    exact h2

/-! ## Scanner lemmas (`takeDigits`, `readSign`, whitespace, split) -/

theorem takeDigits_append (l r : List Char) (hl : ∀ c ∈ l, isDigitChar c = true)
    (hr : ∀ c, r.head? = some c → isDigitChar c = false) :
    takeDigits (l ++ r) = (l, r) := by
  induction l with
  | nil =>
    cases r with
    | nil => rfl
    | cons c cs =>
      simp only [List.nil_append, takeDigits, hr c rfl, Bool.false_eq_true, if_false]
  | cons d l' ih =>
    have hd : isDigitChar d = true := hl d (by simp)
    simp only [List.cons_append, takeDigits, hd, if_true, List.append_eq]
    rw [ih fun c hc => hl c (by simp [hc])]

theorem takeDigits_all (l : List Char) (hl : ∀ c ∈ l, isDigitChar c = true) :
    takeDigits l = (l, []) := by
  have := takeDigits_append l [] hl (by intro c hc; simp at hc)
  simpa using this

theorem isDigitChar_ne (c x : Char) (h : isDigitChar c = true)
    (hx : isDigitChar x = false) : c ≠ x := by
  intro heq
  rw [heq, hx] at h
  exact Bool.false_ne_true h

theorem isWS_of_digit (c : Char) (h : isDigitChar c = true) : isWS c = false := by
  have h1 : c ≠ ' ' := isDigitChar_ne c ' ' h (by decide)
  have h2 : c ≠ '\t' := isDigitChar_ne c '\t' h (by decide)
  have h3 : c ≠ '\n' := isDigitChar_ne c '\n' h (by decide)
  have h4 : c ≠ '\r' := isDigitChar_ne c '\r' h (by decide)
  simp [isWS, h1, h2, h3, h4]

theorem readSign_id (l : List Char) (h : ∀ c, l.head? = some c → isDigitChar c = true) :
    readSign l = (1, l) := by
  cases l with
  | nil => rfl
  | cons c cs =>
    have hc := h c rfl
    have h1 : c ≠ '-' := isDigitChar_ne c '-' hc (by decide)
    have h2 : c ≠ '+' := isDigitChar_ne c '+' hc (by decide)
    simp [readSign, h1, h2]

theorem dropWhile_isWS_eq_self (l : List Char) (h : ∀ c, l.head? = some c → isWS c = false) :
    l.dropWhile isWS = l := by
  cases l with
  | nil => rfl
  | cons c cs => simp [List.dropWhile_cons, h c rfl]

theorem trimWS_eq_self (l : List Char) (h : ∀ c ∈ l, isWS c = false) : trimWS l = l := by
  rw [trimWS, dropWhile_isWS_eq_self l (fun c hc => h c (List.mem_of_mem_head? hc)),
    dropWhile_isWS_eq_self l.reverse
      (fun c hc => h c (List.mem_reverse.mp (List.mem_of_mem_head? hc))),
    List.reverse_reverse]

theorem splitOnColon_no_colon (l : List Char) (h : ∀ c ∈ l, c ≠ ':') :
    splitOnColon l = [l] := by
  induction l with
  | nil => rfl
  | cons c cs ih =>
    have hc : c ≠ ':' := h c (by simp)
    simp only [splitOnColon, hc, if_false]
    rw [ih fun x hx => h x (by simp [hx])]

theorem splitOnColon_append (a b : List Char) (h : ∀ c ∈ a, c ≠ ':') :
    splitOnColon (a ++ ':' :: b) = a :: splitOnColon b := by
  induction a with
  | nil => simp [splitOnColon]
  | cons c cs ih =>
    have hc : c ≠ ':' := h c (by simp)
    simp only [List.cons_append, splitOnColon, hc, if_false, List.append_eq]
    rw [ih fun x hx => h x (by simp [hx])]

/-! ## Evaluation of the JS numeric parsers on rendered segments -/

theorem natRepr_ne_nil (n : Nat) : natRepr n ≠ [] := by
  by_cases hn : n = 0
  · subst hn
    decide
  · rw [natRepr, if_neg hn, natDigitsRev_eq n hn]
    simp

theorem isEmpty_false_of_ne_nil (l : List Char) (h : l ≠ []) : l.isEmpty = false := by
  cases l with
  | nil => exact absurd rfl h
  | cons c cs => rfl

theorem parseIntJS_pad2_natRepr (m : Nat) :
    parseIntJS (pad2 (natRepr m)) = some (m : Int) := by
  have hdig : ∀ c ∈ pad2 (natRepr m), isDigitChar c = true :=
    mem_pad2_digit _ (mem_natRepr_digit m)
  have hdrop : (pad2 (natRepr m)).dropWhile isWS = pad2 (natRepr m) :=
    dropWhile_isWS_eq_self _ fun c hc => isWS_of_digit c (hdig c (List.mem_of_mem_head? hc))
  have hsign : readSign (pad2 (natRepr m)) = (1, pad2 (natRepr m)) :=
    readSign_id _ fun c hc => hdig c (List.mem_of_mem_head? hc)
  have htd : takeDigits (pad2 (natRepr m)) = (pad2 (natRepr m), []) :=
    takeDigits_all _ hdig
  have hemp : (pad2 (natRepr m)).isEmpty = false :=
    isEmpty_false_of_ne_nil _ (pad2_ne_nil _)
  simp only [parseIntJS, hdrop, hsign, htd, hemp, Bool.false_eq_true, if_false,
    digitsToNat_pad2, digitsToNat_natRepr, one_mul]

theorem parseFloatJS_int_frac (a b : List Char) (hane : a ≠ [])
    (ha : ∀ c ∈ a, isDigitChar c = true) (hb : ∀ c ∈ b, isDigitChar c = true) :
    parseFloatJS (a ++ '.' :: b)
      = some ((digitsToNat a : ℚ) + (digitsToNat b : ℚ) / 10 ^ b.length) := by
  have hmem : ∀ c ∈ a ++ '.' :: b, isWS c = false := by
    intro c hc
    rcases List.mem_append.mp hc with h | h
    · exact isWS_of_digit c (ha c h)
    · rcases List.mem_cons.mp h with rfl | h'
      · decide
      · exact isWS_of_digit c (hb c h')
  have hdrop : (a ++ '.' :: b).dropWhile isWS = a ++ '.' :: b :=
    dropWhile_isWS_eq_self _ fun c hc => hmem c (List.mem_of_mem_head? hc)
  have hhead : ∀ c, (a ++ '.' :: b).head? = some c → isDigitChar c = true := by
    cases a with
    | nil => exact absurd rfl hane
    | cons a0 a' =>
      intro c hc
      rw [List.cons_append, List.head?_cons, Option.some.injEq] at hc
      exact hc ▸ ha a0 (by simp)
  have hsign : readSign (a ++ '.' :: b) = (1, a ++ '.' :: b) := readSign_id _ hhead
  have htd : takeDigits (a ++ '.' :: b) = (a, '.' :: b) :=
    takeDigits_append a ('.' :: b) ha (by intro c hc; rw [List.head?_cons, Option.some.injEq] at hc; subst hc; decide)
  have htdb : takeDigits b = (b, []) := takeDigits_all b hb
  have hemp : a.isEmpty = false := isEmpty_false_of_ne_nil a hane
  simp only [parseFloatJS, hdrop, hsign, htd, htdb, if_pos rfl, if_true, hemp,
    Bool.false_and, Bool.false_eq_true, if_false, applyExponent, Int.cast_one, one_mul]

theorem parseFloatJS_neg_natRepr (n : Nat) :
    parseFloatJS ('-' :: natRepr n) = some (-(n : ℚ)) := by
  have hdig : ∀ c ∈ natRepr n, isDigitChar c = true := mem_natRepr_digit n
  have hdrop : ('-' :: natRepr n).dropWhile isWS = '-' :: natRepr n :=
    dropWhile_isWS_eq_self _ (by
      intro c hc
      rw [List.head?_cons, Option.some.injEq] at hc
      subst hc
      decide)
  have hsign : readSign ('-' :: natRepr n) = (-1, natRepr n) := by
    simp [readSign]
  have htd : takeDigits (natRepr n) = (natRepr n, []) := takeDigits_all _ hdig
  have hemp : (natRepr n).isEmpty = false := isEmpty_false_of_ne_nil _ (natRepr_ne_nil n)
  simp only [parseFloatJS, hdrop, hsign, htd, hemp, Bool.false_and, Bool.false_eq_true,
    if_false, applyExponent, digitsToNat_natRepr]
  norm_num [digitsToNat]

/-! ## The codec round trip -/

theorem parseTimeString_formatted (m sec cs : Nat) (_hsec : sec < 100) (hcs : cs < 100) :
    parseTimeString ⟨pad2 (natRepr m) ++ ':' ::
        (pad2 (natRepr sec) ++ '.' :: pad2 (natRepr cs))⟩
      = some ((((m : Int) : ℚ) * 60 + ((sec : ℚ) + (cs : ℚ) / 100)) * 1000) := by
  have hmdig : ∀ c ∈ pad2 (natRepr m), isDigitChar c = true :=
    mem_pad2_digit _ (mem_natRepr_digit m)
  have hsecdig : ∀ c ∈ pad2 (natRepr sec), isDigitChar c = true :=
    mem_pad2_digit _ (mem_natRepr_digit sec)
  have hcsdig : ∀ c ∈ pad2 (natRepr cs), isDigitChar c = true :=
    mem_pad2_digit _ (mem_natRepr_digit cs)
  have hBnc : ∀ c ∈ pad2 (natRepr sec) ++ '.' :: pad2 (natRepr cs), c ≠ ':' := by
    intro c hc
    rcases List.mem_append.mp hc with h | h
    · exact isDigitChar_ne c ':' (hsecdig c h) (by decide)
    · rcases List.mem_cons.mp h with rfl | h'
      · decide
      · exact isDigitChar_ne c ':' (hcsdig c h') (by decide)
  have hnws : ∀ c ∈ pad2 (natRepr m) ++ ':' ::
      (pad2 (natRepr sec) ++ '.' :: pad2 (natRepr cs)), isWS c = false := by
    intro c hc
    rcases List.mem_append.mp hc with h | h
    · exact isWS_of_digit c (hmdig c h)
    · rcases List.mem_cons.mp h with rfl | h'
      · decide
      · rcases List.mem_append.mp h' with h2 | h2
        · exact isWS_of_digit c (hsecdig c h2)
        · rcases List.mem_cons.mp h2 with rfl | h3
          · decide
          · exact isWS_of_digit c (hcsdig c h3)
  have ht : trimWS (pad2 (natRepr m) ++ ':' ::
      (pad2 (natRepr sec) ++ '.' :: pad2 (natRepr cs)))
      = pad2 (natRepr m) ++ ':' :: (pad2 (natRepr sec) ++ '.' :: pad2 (natRepr cs)) :=
    trimWS_eq_self _ hnws
  have hempty : (pad2 (natRepr m) ++ ':' ::
      (pad2 (natRepr sec) ++ '.' :: pad2 (natRepr cs))).isEmpty = false := by
    apply isEmpty_false_of_ne_nil
    intro h
    exact List.cons_ne_nil ':' _ (List.append_eq_nil.mp h).2
  have hany : (pad2 (natRepr m) ++ ':' ::
      (pad2 (natRepr sec) ++ '.' :: pad2 (natRepr cs))).any (fun c => c = ':') = true := by
    rw [List.any_eq_true]
    exact ⟨':', by simp, by simp⟩
  have hsplit : splitOnColon (pad2 (natRepr m) ++ ':' ::
      (pad2 (natRepr sec) ++ '.' :: pad2 (natRepr cs)))
      = pad2 (natRepr m) :: [pad2 (natRepr sec) ++ '.' :: pad2 (natRepr cs)] := by
    rw [splitOnColon_append _ _
      (fun c hc => isDigitChar_ne c ':' (hmdig c hc) (by decide)),
      splitOnColon_no_colon _ hBnc]
  have hfloat : parseFloatJS (pad2 (natRepr sec) ++ '.' :: pad2 (natRepr cs))
      = some ((sec : ℚ) + (cs : ℚ) / 100) := by
    rw [parseFloatJS_int_frac _ _ (pad2_ne_nil _) hsecdig hcsdig,
      digitsToNat_pad2, digitsToNat_pad2, digitsToNat_natRepr, digitsToNat_natRepr,
      pad2_natRepr_length cs hcs]
    norm_num
  have hint : parseIntJS (pad2 (natRepr m)) = some (m : Int) := parseIntJS_pad2_natRepr m
  show parseTimeString ⟨_⟩ = _
  simp only [parseTimeString, ht, hempty, Bool.false_eq_true, if_false, hany, if_true,
    hsplit, hfloat, hint]

/-- Numeric half of the C7 round trip: the parsed value of the rendered
`MM:SS.CC` of `T = ⌊x⌋` is `T` truncated to centiseconds, hence within
10 ms of `x`. -/
theorem parseFormat_bound (x : ℚ) (T : Nat) (h1 : (T : ℚ) ≤ x) (h2 : x < (T : ℚ) + 1) :
    |((((T / 1000 / 60 : Nat) : Int) : ℚ) * 60 +
        (((T / 1000 % 60 : Nat) : ℚ) + ((T % 1000 / 10 : Nat) : ℚ) / 100)) * 1000 - x| ≤ 10 := by
  have hnat : 60000 * (T / 1000 / 60) + 1000 * (T / 1000 % 60)
      + 10 * (T % 1000 / 10) + T % 10 = T := by omega
  have hcast : (60000 : ℚ) * ((T / 1000 / 60 : Nat) : ℚ)
      + 1000 * ((T / 1000 % 60 : Nat) : ℚ)
      + 10 * ((T % 1000 / 10 : Nat) : ℚ) + ((T % 10 : Nat) : ℚ) = (T : ℚ) := by
    exact_mod_cast congrArg (fun n : Nat => (n : ℚ)) hnat
  have hr0 : (0 : ℚ) ≤ ((T % 10 : Nat) : ℚ) := Nat.cast_nonneg _
  have hr9 : ((T % 10 : Nat) : ℚ) ≤ 9 := by
    have : T % 10 ≤ 9 := by omega
    exact_mod_cast this
  have hy : ((((T / 1000 / 60 : Nat) : Int) : ℚ) * 60 +
      (((T / 1000 % 60 : Nat) : ℚ) + ((T % 1000 / 10 : Nat) : ℚ) / 100)) * 1000
      = (T : ℚ) - ((T % 10 : Nat) : ℚ) := by
    rw [Int.cast_natCast]
    linarith
  rw [hy, abs_of_nonpos (by linarith)]
  linarith

/-- C7: for every non-negative duration `x`, `parse(format(x))` is valid and
differs from `x` by at most one centisecond (10 ms).  (`format` truncates to
centiseconds, so the parsed value is `⌊x⌋ - ⌊x⌋ % 10`, within 10 ms below `x`.) -/
theorem claim_C7_parse_format (x : ℚ) (hx : 0 ≤ x) :
    ∃ y, parseTimeString (formatTime x) = some y ∧ |y - x| ≤ 10 := by
  have hfloor0 : (0 : ℤ) ≤ ⌊x⌋ := Int.floor_nonneg.mpr hx
  have hTZ : (((max 0 ⌊x⌋).toNat : ℤ)) = ⌊x⌋ := by
    rw [max_eq_right hfloor0, Int.toNat_of_nonneg hfloor0]
  have hTle : (((max 0 ⌊x⌋).toNat : Nat) : ℚ) ≤ x := by
    have h := Int.floor_le x
    rw [← hTZ] at h
    exact_mod_cast h
  have hTgt : x < (((max 0 ⌊x⌋).toNat : Nat) : ℚ) + 1 := by
    have h := Int.lt_floor_add_one x
    rw [← hTZ] at h
    exact_mod_cast h
  exact ⟨_, parseTimeString_formatted ((max 0 ⌊x⌋).toNat / 1000 / 60)
      ((max 0 ⌊x⌋).toNat / 1000 % 60) ((max 0 ⌊x⌋).toNat % 1000 / 10)
      (by omega) (by omega),
    parseFormat_bound x ((max 0 ⌊x⌋).toNat) hTle hTgt⟩

/-- Witness for C7 at `x = 0` (`format(0) = "00:00.00"`, which parses to 0). -/
theorem claim_C7_witness :
    (0 : ℚ) ≤ 0 ∧ ∃ y, parseTimeString (formatTime 0) = some y ∧ |y - 0| ≤ 10 :=
  ⟨le_refl 0, claim_C7_parse_format 0 (le_refl 0)⟩

/-- C10: `parse` accepts strings denoting negative numbers — for every
positive natural `n`, the string `"-" ++ String(n)` parses to `-(n * 1000)`
milliseconds, a negative value, rather than `invalid`; rejecting non-positive
durations is left to `parse`'s callers (the manual-entry handler, claim C4). -/
theorem claim_C10_parse_negative (n : Nat) (hn : 0 < n) :
    parseTimeString ⟨'-' :: natRepr n⟩ = some (-((n : ℚ) * 1000)) ∧
    (-((n : ℚ) * 1000) : ℚ) < 0 := by
  constructor
  · have hdig : ∀ c ∈ natRepr n, isDigitChar c = true := mem_natRepr_digit n
    have hnws : ∀ c ∈ '-' :: natRepr n, isWS c = false := by
      intro c hc
      rcases List.mem_cons.mp hc with rfl | h'
      · decide
      · exact isWS_of_digit c (hdig c h')
    have ht : trimWS ('-' :: natRepr n) = '-' :: natRepr n := trimWS_eq_self _ hnws
    have hempty : ('-' :: natRepr n).isEmpty = false := rfl
    have hany : ('-' :: natRepr n).any (fun c => c = ':') = false := by
      rw [List.any_eq_false]
      intro c hc
      rcases List.mem_cons.mp hc with rfl | h'
      · decide
      · simpa using isDigitChar_ne c ':' (hdig c h') (by decide)
    have hfloat : parseFloatJS ('-' :: natRepr n) = some (-(n : ℚ)) :=
      parseFloatJS_neg_natRepr n
    show parseTimeString ⟨_⟩ = _
    simp only [parseTimeString, ht, hempty, Bool.false_eq_true, if_false, hany, hfloat]
    norm_num
  · have : (0 : ℚ) < (n : ℚ) := by exact_mod_cast hn
    nlinarith

/-- Witness for C10 at the spec's example: `parse("-5") = -5000`. -/
theorem claim_C10_witness :
    0 < 5 ∧ parseTimeString "-5" = some (-5000 : ℚ) := by
  have h := (claim_C10_parse_negative 5 (by norm_num)).1
  have hs : (⟨'-' :: natRepr 5⟩ : String) = "-5" := by decide
  rw [hs] at h
  rw [h]
  norm_num
